import Mathlib

/-
Formal model of the sp1-reth stateless block processor.

The definitions below are a shallow embedding of the code in
src/primitives/src/{lib.rs, db.rs, processor.rs} and src/program/src/main.rs:
the witness type SP1RethInput, the hydration of an in-memory database from the
witness (InMemoryDBHelper::initialize), the header construction and validation
functions of EvmProcessor, the transaction/withdrawal execution loop
(EvmProcessor::execute, increase_account_balance) and the finalization pass
(EvmProcessor::finalize).

Machine integers are modelled as Nat with explicit bounds checks exactly where
the source performs checked arithmetic or fallible conversions (checked_add,
checked_mul, try_into); U256 wrapping subtraction is modelled explicitly.

The bodies of crate::mpt (sparse Merkle-Patricia trie, keccak, RLP encoding of
StateAccount) are not under src/; they are modelled from the spec, see the
Trie / Collab doc comments below.  The EVM interpreter (revm) is an external
collaborator and enters the model only through its documented interface: a
per-transaction result record and the database commit operation.
-/

/-- 256-bit Keccak digests, modelled as Nat. -/
abbrev Hash := Nat

/-- 160-bit account addresses, modelled as Nat. -/
abbrev Address := Nat

/-- Byte strings (contract bytecode, extra data), modelled as lists of bytes. -/
abbrev Bytes := List Nat

namespace KV

/-- Lookup in an association list; first binding wins (HashMap get). -/
def get? {α β : Type} [DecidableEq α] : List (α × β) → α → Option β
  | [], _ => none
  | p :: t, k => if p.1 = k then some p.2 else get? t k

/-- Remove every binding of a key from an association list. -/
def erase {α β : Type} [DecidableEq α] : List (α × β) → α → List (α × β)
  | [], _ => []
  | p :: t, k => if p.1 = k then erase t k else p :: erase t k

/-- Insert or overwrite a binding (HashMap insert / trie insert). -/
def insert {α β : Type} [DecidableEq α] (l : List (α × β)) (k : α) (v : β) :
    List (α × β) :=
  (k, v) :: erase l k

end KV

/-- Modelled from the spec: the sparse Merkle-Patricia trie collaborator
(collaborator contract of crate::mpt::MptNode, whose body is not under src/)
offers insert_rlp, delete, get_rlp, hash and clear over RLP-encoded values.
Since RLP encoding is injective, the trie is modelled as a key-value map whose
values are stored in decoded form; digest-node failures of the sparse
representation are not modelled (operations act on the materialized view). -/
abbrev Trie (α : Type) := List (Hash × α)

/-- Consensus account record stored in the state trie
(crate::mpt::StateAccount, modelled from the spec: tuple of nonce, balance,
storage root, code hash). -/
structure StateAccount where
  nonce : Nat
  balance : Nat
  storage_root : Hash
  code_hash : Hash
  deriving DecidableEq, Repr

/-- Execution-side account tag (revm AccountState).  None means untouched. -/
inductive AccountState where
  | None
  | Touched
  | StorageCleared
  | NotExisting
  deriving DecidableEq, Repr

/-- revm AccountInfo: balance, nonce, code hash and (inline) bytecode. -/
structure AccountInfo where
  balance : Nat
  nonce : Nat
  code_hash : Hash
  code : Bytes
  deriving DecidableEq, Repr

/-- revm DbAccount: account info, account-state tag, loaded storage slots. -/
structure DbAccount where
  info : AccountInfo
  account_state : AccountState
  storage : List (Nat × Nat)
  deriving DecidableEq, Repr

/-- The account map of revm InMemoryDB (accounts field), keyed by address. -/
abbrev DB := List (Address × DbAccount)

/-- A parent-storage entry of the witness: sparse storage trie plus the list
of slot keys to be loaded (crate::mpt::StorageEntry). -/
abbrev StorageEntry := Trie Nat × List Nat

/-- The parent_storage map of the witness. -/
abbrev PStorage := List (Address × StorageEntry)

/-- Block header (reth_primitives::Header), restricted to the fields the
embedded code reads or writes. -/
structure Header where
  parent_hash : Hash
  state_root : Hash
  transactions_root : Hash
  receipts_root : Hash
  withdrawals_root : Option Hash
  logs_bloom : Nat
  number : Nat
  gas_limit : Nat
  gas_used : Nat
  timestamp : Nat
  extra_data : Bytes
  mix_hash : Hash
  base_fee_per_gas : Option Nat
  beneficiary : Address
  deriving DecidableEq, Repr

/-- Header::default(), used by the ..Default::default() spread in initialize. -/
def defaultHeader : Header :=
  { parent_hash := 0, state_root := 0, transactions_root := 0,
    receipts_root := 0, withdrawals_root := none, logs_bloom := 0,
    number := 0, gas_limit := 0, gas_used := 0, timestamp := 0,
    extra_data := [], mix_hash := 0, base_fee_per_gas := none,
    beneficiary := 0 }

/-- Transaction type tag (reth TxType). -/
inductive TxType where
  | legacy
  | eip2930
  | eip1559
  | eip4844
  deriving DecidableEq, Repr

/-- A witness transaction, restricted to what EvmProcessor::execute inspects:
its type, its gas limit, and the outcome of the external signature recovery
(TransactionSigned::recover_signer, an external reth function, modelled as a
precomputed optional sender). -/
structure RTx where
  txType : TxType
  gas_limit : Nat
  recoveredSigner : Option Address
  deriving DecidableEq, Repr

/-- A consensus-layer withdrawal: target address and amount in gwei (u64). -/
structure Withdrawal where
  address : Address
  amount : Nat
  deriving DecidableEq, Repr

/-- Post-transaction account record of the state delta returned by the
interpreter (revm Account, as consumed by DatabaseCommit::commit). -/
structure AccountDelta where
  info : AccountInfo
  state : AccountState
  storage : List (Nat × Nat)
  deriving DecidableEq, Repr

/-- The result of one interpreter invocation (revm ResultAndState, external
black box): success flag, gas used (u64), logs, and the state delta. -/
structure TxResult where
  success : Bool
  gas_used : Nat
  logs : List Nat
  delta : List (Address × AccountDelta)
  deriving DecidableEq, Repr

/-- A receipt as built by EvmProcessor::execute. -/
structure Receipt where
  txType : TxType
  success : Bool
  cumulativeGasUsed : Nat
  logs : List Nat
  deriving DecidableEq, Repr

/-- The witness (SP1RethInput, src/primitives/src/lib.rs). -/
structure Input where
  parent_header : Header
  beneficiary : Address
  gas_limit : Nat
  timestamp : Nat
  extra_data : Bytes
  mix_hash : Hash
  parent_state_trie : Trie StateAccount
  parent_storage : PStorage
  contracts : List Bytes
  ancestor_headers : List Header
  transactions : List RTx
  withdrawals : List Withdrawal
  deriving Repr

/-- Modelled from the spec: the external collaborators whose bodies are not
under src/ — crate::mpt keccak hashing (of addresses, 32-byte big-endian slot
keys, byte strings and the empty string), Merkle-Patricia root hashing of
state and storage tries, header hashing (Header::hash_slow, the keccak of the
RLP encoding), the ordered trie roots of transactions, receipts and
withdrawals (reth ordered_trie_root_with_encoder), the EIP-1559 base-fee
computation (Header::next_block_base_fee) and the receipt bloom
(Receipt::bloom_slow).  All are treated as abstract functions. -/
structure Collab where
  keccakAddr : Address → Hash
  keccakSlot : Nat → Hash
  keccakBytes : Bytes → Hash
  keccakEmpty : Hash
  emptyRoot : Hash
  trieRootSA : Trie StateAccount → Hash
  trieRootW : Trie Nat → Hash
  hashHeader : Header → Hash
  txsRoot : List RTx → Hash
  receiptsRoot : List Receipt → Hash
  wdRoot : List Withdrawal → Hash
  nextBaseFee : Header → Option Nat
  bloomOf : List Nat → Nat

/-- Modelled from the spec: StateAccount::default() — nonce 0, balance 0,
empty storage root, empty-code hash. -/
def defaultStateAccount (E : Collab) : StateAccount :=
  { nonce := 0, balance := 0, storage_root := E.emptyRoot,
    code_hash := E.keccakEmpty }

/-- AccountInfo::default(): zero balance and nonce, empty-code hash, no code. -/
def defaultAccountInfo (E : Collab) : AccountInfo :=
  { balance := 0, nonce := 0, code_hash := E.keccakEmpty, code := [] }

/-- One parent-storage entry loaded into a DbAccount
(body of the account loop of InMemoryDBHelper::initialize,
src/primitives/src/db.rs lines 65-106).  Looks up the RLP-encoded account at
keccak(address) in the parent state trie, defaulting when absent; aborts
(none) when the storage-trie root differs from the account storage_root, or
when a non-empty code hash has no entry in the contracts map; loads each
declared slot from the storage trie, defaulting to zero. -/
def parentAccountOf (E : Collab) (stateTrie : Trie StateAccount)
    (a : Address) : StateAccount :=
  (KV.get? stateTrie (E.keccakAddr a)).getD (defaultStateAccount E)

def loadAccount (E : Collab) (stateTrie : Trie StateAccount)
    (contracts : List (Hash × Bytes)) (e : Address × StorageEntry) :
    Option DbAccount :=
  let sa := parentAccountOf E stateTrie e.1
  if E.trieRootW e.2.1 = sa.storage_root then
    match (if sa.code_hash = E.keccakEmpty then some ([] : Bytes)
           else KV.get? contracts sa.code_hash) with
    | none => none
    | some code =>
      some { info := { balance := sa.balance, nonce := sa.nonce,
                       code_hash := sa.code_hash, code := code },
             account_state := AccountState.None,
             storage := e.2.2.map
               (fun slot => (slot, (KV.get? e.2.1 (E.keccakSlot slot)).getD 0)) }
  else none

/-- The contracts map built by hashing each contract blob
(src/primitives/src/db.rs lines 57-61). -/
def contractsMap (E : Collab) (contracts : List Bytes) : List (Hash × Bytes) :=
  contracts.map (fun b => (E.keccakBytes b, b))

/-- The account loop of InMemoryDBHelper::initialize: load every
parent-storage entry, aborting at the first failing one. -/
def hydrateAccounts (E : Collab) (stateTrie : Trie StateAccount)
    (contracts : List (Hash × Bytes)) : PStorage → Option DB
  | [] => some []
  | e :: rest =>
    match loadAccount E stateTrie contracts e with
    | none => none
    | some acct =>
      match hydrateAccounts E stateTrie contracts rest with
      | none => none
      | some db => some (KV.insert db e.1 acct)

/-- The ancestor-header loop of InMemoryDBHelper::initialize
(src/primitives/src/db.rs lines 114-133): for each ancestor, require that the
previous header parent_hash equals the hash of the current header and that
the current number is within the 256-block window below the parent number;
then record (number, hash) in the block-hash map. -/
def processAncestorsAux (E : Collab) (parentNum : Nat) :
    Header → List (Nat × Hash) → List Header → Option (List (Nat × Hash))
  | _, bh, [] => some bh
  | prev, bh, current :: rest =>
    if prev.parent_hash = E.hashHeader current then
      if parentNum < current.number ∨ parentNum - current.number ≥ 256 then
        none
      else
        processAncestorsAux E parentNum current
          (KV.insert bh current.number (E.hashHeader current)) rest
    else none

/-- Block-hash map construction (src/primitives/src/db.rs lines 108-133):
starts from (parent.number, parent hash) and folds the ancestor loop. -/
def processAncestors (E : Collab) (parent : Header) (ancs : List Header) :
    Option (List (Nat × Hash)) :=
  processAncestorsAux E parent.number parent
    (KV.insert [] parent.number (E.hashHeader parent)) ancs

/-- InMemoryDBHelper::initialize: hydrate the account map, then the
block-hash map. -/
def hydrate (E : Collab) (input : Input) :
    Option (DB × List (Nat × Hash)) :=
  match hydrateAccounts E input.parent_state_trie
      (contractsMap E input.contracts) input.parent_storage with
  | none => none
  | some db =>
    match processAncestors E input.parent_header input.ancestor_headers with
    | none => none
    | some bh => some (db, bh)

/-- InMemoryDBHelper::get_account_info (src/primitives/src/db.rs lines
143-148): outer none models the error on an address absent from the
closed-world view; some none is the revm convention for a not-existing
account (DbAccount::info() returning None). -/
def get_account_info (db : DB) (address : Address) :
    Option (Option AccountInfo) :=
  match KV.get? db address with
  | some acct =>
    if acct.account_state = AccountState.NotExisting then some none
    else some (some acct.info)
  | none => none

/-- InMemoryDBHelper::get_storage_slot (src/primitives/src/db.rs lines
150-162).  none models both the error returns and the unreachable panic of
the NotExisting case (the core is fail-stop, both abort the computation). -/
def get_storage_slot (db : DB) (address : Address) (index : Nat) :
    Option Nat :=
  match KV.get? db address with
  | some account =>
    match KV.get? account.storage index with
    | some value => some value
    | none =>
      match account.account_state with
      | AccountState.NotExisting => none
      | AccountState.StorageCleared => some 0
      | _ => none
  | none => none

/-- EvmProcessor::validate_header_standalone (src/primitives/src/processor.rs
lines 69-76): false models the panic when gas used exceeds gas limit.
No function in this repository ever calls it. -/
def validateHeaderStandalone (header : Header) : Bool :=
  ! decide (header.gas_used > header.gas_limit)

/-- EvmProcessor::validate_gas_limit (src/primitives/src/processor.rs lines
104-123): false models a panic.  Note the minimum-gas-limit branch is only
reachable when the gas limit does not increase.  No function in this
repository ever calls it. -/
def validateGasLimit (parent header : Header) : Bool :=
  if header.gas_limit > parent.gas_limit then
    ! decide (header.gas_limit - parent.gas_limit ≥ parent.gas_limit / 1024)
  else if parent.gas_limit - header.gas_limit ≥ parent.gas_limit / 1024 then
    false
  else if parent.gas_limit < 5000 then
    false
  else
    true

/-- EvmProcessor::initialize (src/primitives/src/processor.rs lines 142-159):
build the candidate header from the parent and the witness (number is a
checked u64 increment), then run validate_against_parent and
validate_header_extradata.  validate_gas_limit and
validate_header_standalone are not called. -/
def initializeHeader (E : Collab) (input : Input) : Option Header :=
  if input.parent_header.number + 1 < 2 ^ 64 then
    let header : Header :=
      { defaultHeader with
        parent_hash := E.hashHeader input.parent_header,
        number := input.parent_header.number + 1,
        base_fee_per_gas := E.nextBaseFee input.parent_header,
        beneficiary := input.beneficiary,
        gas_limit := input.gas_limit,
        timestamp := input.timestamp,
        mix_hash := input.mix_hash,
        extra_data := input.extra_data }
    if input.parent_header.number + 1 = header.number
        ∧ E.hashHeader input.parent_header = header.parent_hash
        ∧ input.parent_header.timestamp ≤ header.timestamp then
      if header.extra_data.length ≤ 32 then some header else none
    else none
  else none

/-- U256 subtraction as performed on block_available_gas
(src/primitives/src/processor.rs line 192); wraps modulo 2^256 (release-mode
semantics of the zkVM build). -/
def wrapSub256 (a b : Nat) : Nat := (a + 2 ^ 256 - b % 2 ^ 256) % 2 ^ 256

/-- The checks of EvmProcessor::execute that run before the interpreter is
invoked on a transaction (src/primitives/src/processor.rs lines 187-198):
sender recovery must succeed, the transaction gas limit must not exceed the
remaining block gas, and the transaction must not be EIP-4844 (whose
environment fill is an unimplemented todo). -/
def txPreCheck (gasLimit cumGas : Nat) (tx : RTx) : Bool :=
  tx.recoveredSigner.isSome
    && ! decide (wrapSub256 gasLimit cumGas < tx.gas_limit)
    && ! decide (tx.txType = TxType.eip4844)

/-- Modelled from the spec: DatabaseCommit::commit of the revm in-memory
database applies a map of address to post-transaction account by merging it
into the view (new storage entries extend the stored ones). -/
def applyDelta (db : DB) (delta : List (Address × AccountDelta)) : DB :=
  delta.foldl
    (fun d p =>
      match KV.get? d p.1 with
      | some old =>
        KV.insert d p.1
          { info := p.2.info, account_state := p.2.state,
            storage := p.2.storage.foldl
              (fun s kv => KV.insert s kv.1 kv.2) old.storage }
      | none =>
        KV.insert d p.1
          { info := p.2.info, account_state := p.2.state,
            storage := p.2.storage })
    db

/-- The accumulator state of the transaction loop of EvmProcessor::execute:
cumulative gas, receipts, logs bloom and the database. -/
structure ExecState where
  cumGas : Nat
  receipts : List Receipt
  bloom : Nat
  db : DB
  deriving Repr

/-- One iteration of the transaction loop of EvmProcessor::execute
(src/primitives/src/processor.rs lines 187-232): pre-interpreter checks,
then cumulative-gas checked addition (U256), the u64 conversion of the
cumulative gas in the receipt, bloom accrual and the state-delta commit. -/
def execTx (E : Collab) (gasLimit : Nat) (st : ExecState) (tx : RTx)
    (res : TxResult) : Option ExecState :=
  if txPreCheck gasLimit st.cumGas tx then
    if st.cumGas + res.gas_used < 2 ^ 256 then
      if st.cumGas + res.gas_used < 2 ^ 64 then
        some { cumGas := st.cumGas + res.gas_used,
               receipts := st.receipts
                 ++ [{ txType := tx.txType, success := res.success,
                       cumulativeGasUsed := st.cumGas + res.gas_used,
                       logs := res.logs }],
               bloom := st.bloom ||| E.bloomOf res.logs,
               db := applyDelta st.db res.delta }
      else none
    else none
  else none

/-- The transaction loop of EvmProcessor::execute over the paired
(transaction, interpreter result) trace. -/
def runTxs (E : Collab) (gasLimit : Nat) :
    ExecState → List (RTx × TxResult) → Option ExecState
  | st, [] => some st
  | st, p :: rest =>
    match execTx E gasLimit st p.1 p.2 with
    | none => none
    | some st2 => runTxs E gasLimit st2 rest

/-- Modelled from the spec: the basic capability of the revm in-memory
database returns the hydrated account info, or nothing for an absent or
not-existing account (DbAccount::info()). -/
def basicInfo (db : DB) (address : Address) : Option AccountInfo :=
  match KV.get? db address with
  | some acct =>
    if acct.account_state = AccountState.NotExisting then none
    else some acct.info
  | none => none

/-- The balance observable through the basic capability (absent accounts
read as the default zero balance). -/
def dbBalance (E : Collab) (db : DB) (address : Address) : Nat :=
  ((basicInfo db address).getD (defaultAccountInfo E)).balance

/-- increase_account_balance (src/primitives/src/processor.rs lines 405-433):
read the account through basic, defaulting when absent; credit the amount
with a checked U256 addition (overflow aborts); mark the account touched and
commit it back.  The commit merge is modelled from the spec. -/
def increaseAccountBalance (E : Collab) (db : DB) (address : Address)
    (amountWei : Nat) : Option DB :=
  let info := (basicInfo db address).getD (defaultAccountInfo E)
  if info.balance + amountWei < 2 ^ 256 then
    some
      (match KV.get? db address with
       | some acct =>
         KV.insert db address
           { acct with info := { info with balance := info.balance + amountWei },
                       account_state := AccountState.Touched }
       | none =>
         KV.insert db address
           { info := { info with balance := info.balance + amountWei },
             account_state := AccountState.Touched, storage := [] })
  else none

/-- One iteration of the withdrawal loop of EvmProcessor::execute
(src/primitives/src/processor.rs lines 235-243): convert gwei to wei with a
checked U256 multiplication (overflow aborts), then credit the balance. -/
def processWithdrawal (E : Collab) (db : DB) (w : Withdrawal) : Option DB :=
  if 1000000000 * w.amount < 2 ^ 256 then
    increaseAccountBalance E db w.address (1000000000 * w.amount)
  else none

/-- The withdrawal loop of EvmProcessor::execute, in witness order. -/
def processWithdrawals (E : Collab) : DB → List Withdrawal → Option DB
  | db, [] => some db
  | db, w :: rest =>
    match processWithdrawal E db w with
    | none => none
    | some db2 => processWithdrawals E db2 rest

/-- The withdrawal phase acting on the executor state: only the database
changes; cumulative gas, receipts and bloom pass through untouched. -/
def withdrawalPhase (E : Collab) (st : ExecState) (ws : List Withdrawal) :
    Option ExecState :=
  match processWithdrawals E st.db ws with
  | none => none
  | some db2 => some { st with db := db2 }

/-- EvmProcessor::execute (src/primitives/src/processor.rs lines 162-265):
unwrap the base fee for the block environment, run the transaction loop from
a zeroed accumulator, apply the withdrawals, then fill the header roots,
bloom and gas used (a checked u64 conversion of the cumulative gas). -/
def execute (E : Collab) (input : Input) (header : Header) (db0 : DB)
    (results : List TxResult) : Option (Header × DB) :=
  match header.base_fee_per_gas with
  | none => none
  | some _ =>
    match runTxs E input.gas_limit
        { cumGas := 0, receipts := [], bloom := 0, db := db0 }
        (input.transactions.zip results) with
    | none => none
    | some st =>
      match withdrawalPhase E st input.withdrawals with
      | none => none
      | some st2 =>
        if st2.cumGas < 2 ^ 64 then
          some
            ({ header with
               transactions_root := E.txsRoot input.transactions,
               receipts_root := E.receiptsRoot st2.receipts,
               withdrawals_root := some (E.wdRoot input.withdrawals),
               logs_bloom := st2.bloom,
               gas_used := st2.cumGas }, st2.db)
        else none

/-- The per-account storage-trie update of EvmProcessor::finalize
(src/primitives/src/processor.rs lines 289-309): clear the trie when the
account state is StorageCleared, then for each (slot, value) pair delete
keccak(slot) when the value is zero and insert the RLP-encoded value
otherwise. -/
def storageStep (E : Collab) (t : Trie Nat) (kv : Nat × Nat) : Trie Nat :=
  if kv.2 = 0 then KV.erase t (E.keccakSlot kv.1)
  else KV.insert t (E.keccakSlot kv.1) kv.2

def updateStorageTrie (E : Collab) (state : AccountState) (strie : Trie Nat)
    (storage : List (Nat × Nat)) : Trie Nat :=
  let t0 := if state = AccountState.StorageCleared then [] else strie
  storage.foldl (storageStep E) t0

/-- The consensus account that finalize inserts for a touched account: its
nonce, balance and code hash together with the recomputed storage root. -/
def stateAccountOf (E : Collab) (acct : DbAccount) (strie : Trie Nat) :
    StateAccount :=
  { nonce := acct.info.nonce, balance := acct.info.balance,
    storage_root := E.trieRootW (updateStorageTrie E acct.account_state strie acct.storage),
    code_hash := acct.info.code_hash }

/-- The account walk of EvmProcessor::finalize
(src/primitives/src/processor.rs lines 274-321): skip untouched accounts;
delete keccak(address) for not-existing accounts; otherwise look the address
up in parent_storage (a missing entry is the unwrap panic, modelled as
none), update its storage trie and insert the RLP-encoded state account at
keccak(address). -/
def finalizeAccounts (E : Collab) :
    DB → Trie StateAccount → PStorage →
    Option (Trie StateAccount × PStorage)
  | [], st, ps => some (st, ps)
  | (a, acct) :: rest, st, ps =>
    if acct.account_state = AccountState.None then
      finalizeAccounts E rest st ps
    else if acct.account_state = AccountState.NotExisting then
      finalizeAccounts E rest (KV.erase st (E.keccakAddr a)) ps
    else
      match KV.get? ps a with
      | none => none
      | some se =>
        let t1 := updateStorageTrie E acct.account_state se.1 acct.storage
        finalizeAccounts E rest
          (KV.insert st (E.keccakAddr a) (stateAccountOf E acct se.1))
          (KV.insert ps a (t1, se.2))

/-- EvmProcessor::finalize (src/primitives/src/processor.rs lines 270-328):
walk the accounts, then stamp the state root of the resulting trie into the
header. -/
def finalize (E : Collab) (header : Header) (db : DB)
    (stateTrie : Trie StateAccount) (ps : PStorage) :
    Option (Header × Trie StateAccount × PStorage) :=
  match finalizeAccounts E db stateTrie ps with
  | none => none
  | some (t, ps2) =>
    some ({ header with state_root := E.trieRootSA t }, t, ps2)

/-- The guest program main (src/program/src/main.rs lines 13-33): hydrate,
initialize, execute, finalize, and hash the finished header.  The
interpreter trace is the list of per-transaction results of the external
EVM. -/
def runBlock (E : Collab) (input : Input) (results : List TxResult) :
    Option (Hash × Header) :=
  match hydrate E input with
  | none => none
  | some (db, _) =>
    match initializeHeader E input with
    | none => none
    | some header =>
      match execute E input header db results with
      | none => none
      | some (h2, db2) =>
        match finalize E h2 db2 input.parent_state_trie input.parent_storage with
        | none => none
        | some (h3, _, _) => some (E.hashHeader h3, h3)

/-- The gas used by a prefix of the interpreter trace. -/
def sumGasUsed : List (RTx × TxResult) → Nat
  | [] => 0
  | p :: rest => p.2.gas_used + sumGasUsed rest

/-- The per-ancestor checks exactly as the claim words them: linkage and a
(truncated) 256-block window below the parent number. -/
def ancestorChecksSpec (E : Collab) (parentNum : Nat) :
    Header → List Header → Bool
  | _, [] => true
  | prev, c :: rest =>
    decide (prev.parent_hash = E.hashHeader c)
      && decide (parentNum - c.number < 256)
      && ancestorChecksSpec E parentNum c rest

/-- A concrete instantiation of the external collaborators used to evaluate
the model on closed inputs: identity hashing for addresses and slots, zero
trie roots, and a header hash that separates headers by timestamp. -/
def collabC : Collab :=
  { keccakAddr := id, keccakSlot := id, keccakBytes := fun _ => 0,
    keccakEmpty := 0, emptyRoot := 0,
    trieRootSA := fun _ => 0, trieRootW := fun _ => 0,
    hashHeader := fun h => h.timestamp + 100,
    txsRoot := fun _ => 0, receiptsRoot := fun _ => 0, wdRoot := fun _ => 0,
    nextBaseFee := fun _ => some 0, bloomOf := fun _ => 0 }

/-- Second ancestor of the duplicate-number chain: block number 5. -/
def ancB : Header := { defaultHeader with number := 5, timestamp := 2 }

/-- First ancestor of the duplicate-number chain: also block number 5, linked
to ancB by parent hash. -/
def ancA : Header :=
  { defaultHeader with
    number := 5, timestamp := 1, parent_hash := collabC.hashHeader ancB }

/-- Parent header of the duplicate-number chain, linked to ancA. -/
def parentDup : Header :=
  { defaultHeader with
    number := 5, timestamp := 3, parent_hash := collabC.hashHeader ancA }

/-- A witness whose gas limit doubles the parent gas limit, with no
transactions and no withdrawals. -/
def inputGasJump : Input :=
  { parent_header :=
      { defaultHeader with number := 100, gas_limit := 1000000, timestamp := 5 },
    beneficiary := 1, gas_limit := 2000000, timestamp := 6, extra_data := [],
    mix_hash := 0, parent_state_trie := [], parent_storage := [],
    contracts := [], ancestor_headers := [], transactions := [],
    withdrawals := [] }

/-- A witness with block gas limit 100 and a single legacy transaction of
gas limit 100 with a recoverable sender. -/
def inputOneTx : Input :=
  { parent_header :=
      { defaultHeader with number := 100, gas_limit := 100, timestamp := 5 },
    beneficiary := 1, gas_limit := 100, timestamp := 6, extra_data := [],
    mix_hash := 0, parent_state_trie := [], parent_storage := [],
    contracts := [], ancestor_headers := [],
    transactions := [{ txType := TxType.legacy, gas_limit := 100,
                       recoveredSigner := some 7 }],
    withdrawals := [] }

/-- An interpreter result reporting 200 gas used with an empty state delta. -/
def resOverGas : TxResult :=
  { success := true, gas_used := 200, logs := [], delta := [] }

/-- A one-account view used to evaluate the storage read on closed inputs. -/
def acctC8 : DbAccount :=
  { info := { balance := 0, nonce := 0, code_hash := 0, code := [] },
    account_state := AccountState.Touched, storage := [(2, 9)] }

/-- The database holding acctC8 at address 1. -/
def dbC8 : DB := [(1, acctC8)]

/-- A touched account used to evaluate finalization on closed inputs. -/
def acctW1 : DbAccount :=
  { info := { balance := 10, nonce := 1, code_hash := 0, code := [] },
    account_state := AccountState.Touched, storage := [(1, 4)] }

/-- The parent-storage map holding an empty storage entry for acctW1. -/
def psW1 : PStorage := [(3, ([], []))]

/-- The state trie produced by finalizing acctW1 alone. -/
def trieW1 : Trie StateAccount :=
  [(3, { nonce := 1, balance := 10, storage_root := 0, code_hash := 0 })]

/-- The parent-storage map after finalizing acctW1 alone. -/
def psW1out : PStorage := [(3, ([(1, 4)], []))]

instance : DecidableEq (Trie StateAccount × PStorage) := instDecidableEqProd

/-- A well-formed single ancestor: block number 9. -/
def ancW4 : Header := { defaultHeader with number := 9, timestamp := 1 }

/-- A parent at number 10 linked to ancW4. -/
def parentW4 : Header :=
  { defaultHeader with
    number := 10, timestamp := 3, parent_hash := collabC.hashHeader ancW4 }

/-- A legacy transaction with gas limit 7 and a recoverable sender. -/
def txW7 : RTx :=
  { txType := TxType.legacy, gas_limit := 7, recoveredSigner := some 3 }

/-- A legacy transaction with gas limit 10 whose sender recovery fails. -/
def txNoSig : RTx :=
  { txType := TxType.legacy, gas_limit := 10, recoveredSigner := none }

/-- A withdrawal of 3 gwei to address 2. -/
def wd9 : Withdrawal := { address := 2, amount := 3 }

/-- The database produced by crediting wd9 on an empty database. -/
def dbOut9 : DB :=
  [(2, { info := { balance := 3000000000, nonce := 0, code_hash := 0,
                   code := [] },
         account_state := AccountState.Touched, storage := [] })]

theorem KV.get?_erase_self {α β : Type} [DecidableEq α]
    (l : List (α × β)) (k : α) : KV.get? (KV.erase l k) k = none := by
  induction l with
  | nil => rfl
  | cons p t ih =>
    by_cases hp : p.1 = k
    · simpa [KV.erase, hp] using ih
    · simp [KV.erase, KV.get?, hp, ih]

theorem KV.get?_erase_ne {α β : Type} [DecidableEq α]
    (l : List (α × β)) (k k2 : α) (h : k ≠ k2) :
    KV.get? (KV.erase l k) k2 = KV.get? l k2 := by
  induction l with
  | nil => rfl
  | cons p t ih =>
    by_cases hp : p.1 = k
    · have hp2 : ¬ p.1 = k2 := by rw [hp]; exact h
      rw [show KV.erase (p :: t) k = KV.erase t k from by simp [KV.erase, hp]]
      rw [ih]
      simp [KV.get?, hp2]
    · simp only [KV.erase, if_neg hp]
      by_cases hq : p.1 = k2
      · simp [KV.get?, hq]
      · simp [KV.get?, hq, ih]

theorem KV.get?_insert_self {α β : Type} [DecidableEq α]
    (l : List (α × β)) (k : α) (v : β) :
    KV.get? (KV.insert l k v) k = some v := by
  simp [KV.insert, KV.get?]

theorem KV.get?_insert_ne {α β : Type} [DecidableEq α]
    (l : List (α × β)) (k k2 : α) (v : β) (h : k ≠ k2) :
    KV.get? (KV.insert l k v) k2 = KV.get? l k2 := by
  have := KV.get?_erase_ne l k k2 h
  simp [KV.insert, KV.get?, h, this]

/-- C8: for every address and slot, the state-view storage read returns the
hydrated value when the slot is present in the account storage map; when the
account is present but the slot is absent it returns 0 exactly when the
account state is StorageCleared and fails otherwise; and it fails when the
address is absent from the view. -/
theorem c8_storage_read (db : DB) (a : Address) (i : Nat) :
    (∀ acct, KV.get? db a = some acct →
       (∀ v, KV.get? acct.storage i = some v → get_storage_slot db a i = some v)
       ∧ (KV.get? acct.storage i = none →
            get_storage_slot db a i =
              if acct.account_state = AccountState.StorageCleared then some 0
              else none))
    ∧ (KV.get? db a = none → get_storage_slot db a i = none) := by
  constructor
  · intro acct hacct
    constructor
    · intro v hv
      simp [get_storage_slot, hacct, hv]
    · intro hnone
      cases hstate : acct.account_state <;>
        simp [get_storage_slot, hacct, hnone, hstate]
  · intro hnone
    simp [get_storage_slot, hnone]

/-- Witness for C8 on a concrete view: a loaded slot reads back, and an
address outside the view fails. -/
theorem c8_storage_read_witness :
    get_storage_slot dbC8 1 2 = some 9 ∧ get_storage_slot dbC8 5 2 = none := by
  constructor
  · exact ((c8_storage_read dbC8 1 2).1 acctC8 (by decide)).1 9 (by decide)
  · exact (c8_storage_read dbC8 5 2).2 (by decide)

theorem loadAccount_none_iff (E : Collab) (stateTrie : Trie StateAccount)
    (contracts : List (Hash × Bytes)) (e : Address × StorageEntry) :
    loadAccount E stateTrie contracts e = none ↔
      E.trieRootW e.2.1 ≠ (parentAccountOf E stateTrie e.1).storage_root
      ∨ ((parentAccountOf E stateTrie e.1).code_hash ≠ E.keccakEmpty
         ∧ KV.get? contracts (parentAccountOf E stateTrie e.1).code_hash = none) := by
  by_cases hroot : E.trieRootW e.2.1 = (parentAccountOf E stateTrie e.1).storage_root
  · by_cases hch : (parentAccountOf E stateTrie e.1).code_hash = E.keccakEmpty
    · simp [loadAccount, hroot, hch]
    · cases hc : KV.get? contracts (parentAccountOf E stateTrie e.1).code_hash with
      | none => simp [loadAccount, hroot, hch, hc]
      | some code => simp [loadAccount, hroot, hch, hc]
  · simp [loadAccount, hroot]

/-- C3: the account-hydration loop aborts if and only if some parent-storage
entry fails its consistency check — the provided storage-trie root differs
from the storage root of the account looked up (with default) at
keccak(address) in the parent state trie, or the account has a non-empty code
hash with no matching bytecode in the contracts map. -/
theorem c3_hydration_abort (E : Collab) (stateTrie : Trie StateAccount)
    (contracts : List (Hash × Bytes)) (entries : PStorage) :
    hydrateAccounts E stateTrie contracts entries = none ↔
      ∃ e ∈ entries,
        E.trieRootW e.2.1 ≠ (parentAccountOf E stateTrie e.1).storage_root
        ∨ ((parentAccountOf E stateTrie e.1).code_hash ≠ E.keccakEmpty
           ∧ KV.get? contracts (parentAccountOf E stateTrie e.1).code_hash = none) := by
  induction entries with
  | nil => simp [hydrateAccounts]
  | cons e rest ih =>
    cases hl : loadAccount E stateTrie contracts e with
    | none =>
      have hbad := (loadAccount_none_iff E stateTrie contracts e).mp hl
      simp only [hydrateAccounts, hl]
      constructor
      · intro _
        exact ⟨e, List.mem_cons_self e rest, hbad⟩
      · intro _
        trivial
    | some acct =>
      have hgood := (loadAccount_none_iff E stateTrie contracts e).not
      rw [hl] at hgood
      have hok : ¬ (E.trieRootW e.2.1 ≠ (parentAccountOf E stateTrie e.1).storage_root
          ∨ ((parentAccountOf E stateTrie e.1).code_hash ≠ E.keccakEmpty
             ∧ KV.get? contracts (parentAccountOf E stateTrie e.1).code_hash = none)) := by
        rw [← hgood]
        simp
      cases hr : hydrateAccounts E stateTrie contracts rest with
      | none =>
        simp only [hydrateAccounts, hl, hr]
        constructor
        · intro _
          obtain ⟨e2, he2, hb2⟩ := ih.mp hr
          exact ⟨e2, List.mem_cons_of_mem e he2, hb2⟩
        · intro _
          trivial
      | some db =>
        simp only [hydrateAccounts, hl, hr]
        constructor
        · intro hcontra
          exact absurd hcontra (by simp)
        · rintro ⟨e2, he2, hb2⟩
          rcases List.mem_cons.mp he2 with rfl | he2r
          · exact absurd hb2 hok
          · exact absurd (ih.mpr ⟨e2, he2r, hb2⟩) (by simp [hr])

theorem storageFold_preserve (E : Collab) (l : List (Nat × Nat)) (t : Trie Nat)
    (k : Hash) (h : ∀ p ∈ l, E.keccakSlot p.1 ≠ k) :
    KV.get? (l.foldl (storageStep E) t) k = KV.get? t k := by
  induction l generalizing t with
  | nil => rfl
  | cons q rest ih =>
    have hq : E.keccakSlot q.1 ≠ k := h q (List.mem_cons_self q rest)
    have hrest : ∀ p ∈ rest, E.keccakSlot p.1 ≠ k :=
      fun p hp => h p (List.mem_cons_of_mem q hp)
    have hstep : KV.get? (storageStep E t q) k = KV.get? t k := by
      by_cases hz : q.2 = 0
      · simp [storageStep, hz, KV.get?_erase_ne _ _ _ hq]
      · simp [storageStep, hz, KV.get?_insert_ne _ _ _ _ hq]
    calc KV.get? (List.foldl (storageStep E) (storageStep E t q) rest) k
        = KV.get? (storageStep E t q) k := ih (storageStep E t q) hrest
      _ = KV.get? t k := hstep

theorem storageFold_mem (E : Collab) (l : List (Nat × Nat)) (t : Trie Nat)
    (hnodup : (l.map Prod.fst).Nodup) (hinj : Function.Injective E.keccakSlot) :
    ∀ p ∈ l,
      (p.2 = 0 → KV.get? (l.foldl (storageStep E) t) (E.keccakSlot p.1) = none)
      ∧ (p.2 ≠ 0 →
          KV.get? (l.foldl (storageStep E) t) (E.keccakSlot p.1) = some p.2) := by
  induction l generalizing t with
  | nil => intro p hp; cases hp
  | cons q rest ih =>
    have hnd := List.nodup_cons.mp hnodup
    intro p hp
    rcases List.mem_cons.mp hp with rfl | hpr
    · have hrest : ∀ r ∈ rest, E.keccakSlot r.1 ≠ E.keccakSlot p.1 := by
        intro r hr hcontra
        exact hnd.1 (hinj hcontra ▸ List.mem_map_of_mem Prod.fst hr)
      constructor
      · intro hz
        rw [List.foldl_cons, storageFold_preserve E rest _ _ hrest]
        simp [storageStep, hz, KV.get?_erase_self]
      · intro hz
        rw [List.foldl_cons, storageFold_preserve E rest _ _ hrest]
        simp [storageStep, hz, KV.get?_insert_self]
    · exact ih (storageStep E t q) hnd.2 p hpr

/-- C2: during finalization, for every slot of a touched account the key
keccak(slot) is absent from the updated storage trie when the value is zero
and holds the value when it is non-zero (the trie having first been cleared
when the account state is StorageCleared); in particular every zero-valued
slot is absent from the post-state storage trie. -/
theorem c2_storage_updates (E : Collab) (state : AccountState)
    (strie : Trie Nat) (storage : List (Nat × Nat))
    (hnodup : (storage.map Prod.fst).Nodup)
    (hinj : Function.Injective E.keccakSlot) :
    ∀ p ∈ storage,
      (p.2 = 0 →
        KV.get? (updateStorageTrie E state strie storage) (E.keccakSlot p.1) = none)
      ∧ (p.2 ≠ 0 →
        KV.get? (updateStorageTrie E state strie storage) (E.keccakSlot p.1)
          = some p.2) := by
  intro p hp
  exact storageFold_mem E storage
    (if state = AccountState.StorageCleared then [] else strie) hnodup hinj p hp

/-- Witness for C2 on a concrete account: a zeroed slot disappears and a
written slot reads back. -/
theorem c2_storage_updates_witness :
    KV.get? (updateStorageTrie collabC AccountState.Touched [(1, 7)]
      [(1, 0), (2, 5)]) (collabC.keccakSlot 1) = none
    ∧ KV.get? (updateStorageTrie collabC AccountState.Touched [(1, 7)]
      [(1, 0), (2, 5)]) (collabC.keccakSlot 2) = some 5 := by
  constructor
  · exact (c2_storage_updates collabC AccountState.Touched [(1, 7)] [(1, 0), (2, 5)]
      (by decide) (fun a b h => h) (1, 0) (by decide)).1 rfl
  · exact (c2_storage_updates collabC AccountState.Touched [(1, 7)] [(1, 0), (2, 5)]
      (by decide) (fun a b h => h) (2, 5) (by decide)).2 (by decide)

theorem finalizeAccounts_trie_preserve (E : Collab) (accounts : DB)
    (st : Trie StateAccount) (ps : PStorage) (T2 : Trie StateAccount)
    (ps2 : PStorage) (k : Hash)
    (hres : finalizeAccounts E accounts st ps = some (T2, ps2))
    (hk : ∀ p ∈ accounts, E.keccakAddr p.1 ≠ k) :
    KV.get? T2 k = KV.get? st k := by
  induction accounts generalizing st ps with
  | nil =>
    simp only [finalizeAccounts, Option.some.injEq, Prod.mk.injEq] at hres
    rw [← hres.1]
  | cons q rest ih =>
    obtain ⟨a, acct⟩ := q
    have hka : E.keccakAddr a ≠ k := hk (a, acct) (List.mem_cons_self _ _)
    have hkrest : ∀ p ∈ rest, E.keccakAddr p.1 ≠ k :=
      fun p hp => hk p (List.mem_cons_of_mem _ hp)
    by_cases h1 : acct.account_state = AccountState.None
    · rw [show finalizeAccounts E ((a, acct) :: rest) st ps
          = finalizeAccounts E rest st ps from by
        simp [finalizeAccounts, h1]] at hres
      exact ih st ps hres hkrest
    · by_cases h2 : acct.account_state = AccountState.NotExisting
      · rw [show finalizeAccounts E ((a, acct) :: rest) st ps
            = finalizeAccounts E rest (KV.erase st (E.keccakAddr a)) ps from by
          simp [finalizeAccounts, h1, h2]] at hres
        rw [ih _ ps hres hkrest]
        exact KV.get?_erase_ne st (E.keccakAddr a) k hka
      · cases hps : KV.get? ps a with
        | none =>
          rw [show finalizeAccounts E ((a, acct) :: rest) st ps = none from by
            simp [finalizeAccounts, h1, h2, hps]] at hres
          exact absurd hres (by simp)
        | some se =>
          rw [show finalizeAccounts E ((a, acct) :: rest) st ps
              = finalizeAccounts E rest
                  (KV.insert st (E.keccakAddr a) (stateAccountOf E acct se.1))
                  (KV.insert ps a
                    (updateStorageTrie E acct.account_state se.1 acct.storage,
                     se.2)) from by
            simp [finalizeAccounts, h1, h2, hps]] at hres
          rw [ih _ _ hres hkrest]
          exact KV.get?_insert_ne st (E.keccakAddr a) k _ hka

theorem finalizeAccounts_ps_preserve (E : Collab) (accounts : DB)
    (st : Trie StateAccount) (ps : PStorage) (T2 : Trie StateAccount)
    (ps2 : PStorage) (addr : Address)
    (hres : finalizeAccounts E accounts st ps = some (T2, ps2))
    (ha : ∀ p ∈ accounts, p.1 ≠ addr) :
    KV.get? ps2 addr = KV.get? ps addr := by
  induction accounts generalizing st ps with
  | nil =>
    simp only [finalizeAccounts, Option.some.injEq, Prod.mk.injEq] at hres
    rw [← hres.2]
  | cons q rest ih =>
    obtain ⟨a, acct⟩ := q
    have haa : a ≠ addr := ha (a, acct) (List.mem_cons_self _ _)
    have harest : ∀ p ∈ rest, p.1 ≠ addr :=
      fun p hp => ha p (List.mem_cons_of_mem _ hp)
    by_cases h1 : acct.account_state = AccountState.None
    · rw [show finalizeAccounts E ((a, acct) :: rest) st ps
          = finalizeAccounts E rest st ps from by
        simp [finalizeAccounts, h1]] at hres
      exact ih st ps hres harest
    · by_cases h2 : acct.account_state = AccountState.NotExisting
      · rw [show finalizeAccounts E ((a, acct) :: rest) st ps
            = finalizeAccounts E rest (KV.erase st (E.keccakAddr a)) ps from by
          simp [finalizeAccounts, h1, h2]] at hres
        exact ih _ ps hres harest
      · cases hps : KV.get? ps a with
        | none =>
          rw [show finalizeAccounts E ((a, acct) :: rest) st ps = none from by
            simp [finalizeAccounts, h1, h2, hps]] at hres
          exact absurd hres (by simp)
        | some se =>
          rw [show finalizeAccounts E ((a, acct) :: rest) st ps
              = finalizeAccounts E rest
                  (KV.insert st (E.keccakAddr a) (stateAccountOf E acct se.1))
                  (KV.insert ps a
                    (updateStorageTrie E acct.account_state se.1 acct.storage,
                     se.2)) from by
            simp [finalizeAccounts, h1, h2, hps]] at hres
          rw [ih _ _ hres harest]
          exact KV.get?_insert_ne ps a addr _ haa

/-- C10: finalization succeeds when every account touched by execution
(state neither None nor NotExisting) has a parent-storage entry, and aborts
(the unwrap panic) whenever some touched account lacks one. -/
theorem c10_finalize_parent_storage (E : Collab) (accounts : DB)
    (st : Trie StateAccount) (ps : PStorage) :
    ((∀ p ∈ accounts, p.2.account_state ≠ AccountState.None →
        p.2.account_state ≠ AccountState.NotExisting →
        (KV.get? ps p.1).isSome) →
      (finalizeAccounts E accounts st ps).isSome)
    ∧ (∀ p ∈ accounts, p.2.account_state ≠ AccountState.None →
        p.2.account_state ≠ AccountState.NotExisting →
        KV.get? ps p.1 = none →
        finalizeAccounts E accounts st ps = none) := by
  constructor
  · intro hpre
    induction accounts generalizing st ps with
    | nil => simp [finalizeAccounts]
    | cons q rest ih =>
      obtain ⟨a, acct⟩ := q
      have hprerest : ∀ p ∈ rest, p.2.account_state ≠ AccountState.None →
          p.2.account_state ≠ AccountState.NotExisting →
          (KV.get? ps p.1).isSome :=
        fun p hp => hpre p (List.mem_cons_of_mem _ hp)
      by_cases h1 : acct.account_state = AccountState.None
      · rw [show finalizeAccounts E ((a, acct) :: rest) st ps
            = finalizeAccounts E rest st ps from by simp [finalizeAccounts, h1]]
        exact ih st ps hprerest
      · by_cases h2 : acct.account_state = AccountState.NotExisting
        · rw [show finalizeAccounts E ((a, acct) :: rest) st ps
              = finalizeAccounts E rest (KV.erase st (E.keccakAddr a)) ps from by
            simp [finalizeAccounts, h1, h2]]
          exact ih _ ps hprerest
        · have hsome := hpre (a, acct) (List.mem_cons_self _ _) h1 h2
          cases hps : KV.get? ps a with
          | none => rw [hps] at hsome; exact absurd hsome (by simp)
          | some se =>
            rw [show finalizeAccounts E ((a, acct) :: rest) st ps
                = finalizeAccounts E rest
                    (KV.insert st (E.keccakAddr a) (stateAccountOf E acct se.1))
                    (KV.insert ps a
                      (updateStorageTrie E acct.account_state se.1 acct.storage,
                       se.2)) from by
              simp [finalizeAccounts, h1, h2, hps]]
            refine ih _ _ ?_
            intro p hp hp1 hp2
            by_cases hpa : p.1 = a
            · rw [hpa, KV.get?_insert_self]
              rfl
            · rw [KV.get?_insert_ne ps a p.1 _ (fun hc => hpa hc.symm)]
              exact hprerest p hp hp1 hp2
  · induction accounts generalizing st ps with
    | nil =>
      intro p hp
      cases hp
    | cons q rest ih =>
      intro p hp hn1 hn2 hnone
      obtain ⟨a, acct⟩ := q
      rcases List.mem_cons.mp hp with heq | hpr
      · subst heq
        simp [finalizeAccounts, hn1, hn2, hnone]
      · by_cases h1 : acct.account_state = AccountState.None
        · rw [show finalizeAccounts E ((a, acct) :: rest) st ps
              = finalizeAccounts E rest st ps from by simp [finalizeAccounts, h1]]
          exact ih st ps p hpr hn1 hn2 hnone
        · by_cases h2 : acct.account_state = AccountState.NotExisting
          · rw [show finalizeAccounts E ((a, acct) :: rest) st ps
                = finalizeAccounts E rest (KV.erase st (E.keccakAddr a)) ps from by
              simp [finalizeAccounts, h1, h2]]
            exact ih _ ps p hpr hn1 hn2 hnone
          · cases hps : KV.get? ps a with
            | none => simp [finalizeAccounts, h1, h2, hps]
            | some se =>
              have hpa : p.1 ≠ a := by
                intro hc
                rw [hc, hps] at hnone
                cases hnone
              rw [show finalizeAccounts E ((a, acct) :: rest) st ps
                  = finalizeAccounts E rest
                      (KV.insert st (E.keccakAddr a) (stateAccountOf E acct se.1))
                      (KV.insert ps a
                        (updateStorageTrie E acct.account_state se.1 acct.storage,
                         se.2)) from by
                simp [finalizeAccounts, h1, h2, hps]]
              refine ih _ _ p hpr hn1 hn2 ?_
              rw [KV.get?_insert_ne ps a p.1 _ (fun hc => hpa hc.symm)]
              exact hnone

theorem finalizeAccounts_mem (E : Collab) (accounts : DB)
    (st : Trie StateAccount) (ps : PStorage) (T2 : Trie StateAccount)
    (ps2 : PStorage)
    (hinj : Function.Injective E.keccakAddr)
    (hnodup : (accounts.map Prod.fst).Nodup)
    (hres : finalizeAccounts E accounts st ps = some (T2, ps2)) :
    ∀ p ∈ accounts,
      (p.2.account_state = AccountState.None →
        KV.get? T2 (E.keccakAddr p.1) = KV.get? st (E.keccakAddr p.1))
      ∧ (p.2.account_state = AccountState.NotExisting →
        KV.get? T2 (E.keccakAddr p.1) = none)
      ∧ (p.2.account_state ≠ AccountState.None →
         p.2.account_state ≠ AccountState.NotExisting →
        KV.get? T2 (E.keccakAddr p.1)
          = (KV.get? ps p.1).map (fun se => stateAccountOf E p.2 se.1)) := by
  induction accounts generalizing st ps with
  | nil =>
    intro p hp
    cases hp
  | cons q rest ih =>
    intro p hp
    obtain ⟨a, acct⟩ := q
    have hnd := List.nodup_cons.mp hnodup
    have hkrest : ∀ r ∈ rest, E.keccakAddr r.1 ≠ E.keccakAddr a := by
      intro r hr hc
      have hmem : r.1 ∈ rest.map Prod.fst := List.mem_map_of_mem Prod.fst hr
      rw [hinj hc] at hmem
      exact hnd.1 hmem
    rcases List.mem_cons.mp hp with heq | hpr
    · subst heq
      by_cases h1 : acct.account_state = AccountState.None
      · rw [show finalizeAccounts E ((a, acct) :: rest) st ps
            = finalizeAccounts E rest st ps from by simp [finalizeAccounts, h1]]
          at hres
        refine ⟨fun _ => ?_, fun hc => ?_, fun hc _ => absurd h1 hc⟩
        · exact finalizeAccounts_trie_preserve E rest st ps T2 ps2 _ hres hkrest
        · rw [h1] at hc
          cases hc
      · by_cases h2 : acct.account_state = AccountState.NotExisting
        · rw [show finalizeAccounts E ((a, acct) :: rest) st ps
              = finalizeAccounts E rest (KV.erase st (E.keccakAddr a)) ps from by
            simp [finalizeAccounts, h1, h2]] at hres
          refine ⟨fun hc => absurd hc h1, fun _ => ?_, fun _ hc => absurd h2 hc⟩
          rw [finalizeAccounts_trie_preserve E rest _ ps T2 ps2 _ hres hkrest]
          exact KV.get?_erase_self st (E.keccakAddr a)
        · cases hps : KV.get? ps a with
          | none =>
            rw [show finalizeAccounts E ((a, acct) :: rest) st ps = none from by
              simp [finalizeAccounts, h1, h2, hps]] at hres
            exact absurd hres (by simp)
          | some se =>
            rw [show finalizeAccounts E ((a, acct) :: rest) st ps
                = finalizeAccounts E rest
                    (KV.insert st (E.keccakAddr a) (stateAccountOf E acct se.1))
                    (KV.insert ps a
                      (updateStorageTrie E acct.account_state se.1 acct.storage,
                       se.2)) from by
              simp [finalizeAccounts, h1, h2, hps]] at hres
            refine ⟨fun hc => absurd hc h1, fun hc => absurd hc h2,
              fun _ _ => ?_⟩
            rw [finalizeAccounts_trie_preserve E rest _ _ T2 ps2 _ hres hkrest]
            rw [KV.get?_insert_self]
            simp [hps]
    · have hpa : p.1 ≠ a := by
        intro hc
        have hmem : p.1 ∈ rest.map Prod.fst := List.mem_map_of_mem Prod.fst hpr
        rw [hc] at hmem
        exact hnd.1 hmem
      have hka : E.keccakAddr a ≠ E.keccakAddr p.1 :=
        fun hc => hpa (hinj hc).symm
      by_cases h1 : acct.account_state = AccountState.None
      · rw [show finalizeAccounts E ((a, acct) :: rest) st ps
            = finalizeAccounts E rest st ps from by simp [finalizeAccounts, h1]]
          at hres
        exact ih st ps hnd.2 hres p hpr
      · by_cases h2 : acct.account_state = AccountState.NotExisting
        · rw [show finalizeAccounts E ((a, acct) :: rest) st ps
              = finalizeAccounts E rest (KV.erase st (E.keccakAddr a)) ps from by
            simp [finalizeAccounts, h1, h2]] at hres
          obtain ⟨ih1, ih2, ih3⟩ := ih _ ps hnd.2 hres p hpr
          refine ⟨fun hc => ?_, ih2, ih3⟩
          rw [ih1 hc]
          exact KV.get?_erase_ne st (E.keccakAddr a) _ hka
        · cases hps : KV.get? ps a with
          | none =>
            rw [show finalizeAccounts E ((a, acct) :: rest) st ps = none from by
              simp [finalizeAccounts, h1, h2, hps]] at hres
            exact absurd hres (by simp)
          | some se =>
            rw [show finalizeAccounts E ((a, acct) :: rest) st ps
                = finalizeAccounts E rest
                    (KV.insert st (E.keccakAddr a) (stateAccountOf E acct se.1))
                    (KV.insert ps a
                      (updateStorageTrie E acct.account_state se.1 acct.storage,
                       se.2)) from by
              simp [finalizeAccounts, h1, h2, hps]] at hres
            obtain ⟨ih1, ih2, ih3⟩ := ih _ _ hnd.2 hres p hpr
            refine ⟨fun hc => ?_, ih2, fun hc1 hc2 => ?_⟩
            · rw [ih1 hc]
              exact KV.get?_insert_ne st (E.keccakAddr a) _ _ hka
            · rw [ih3 hc1 hc2]
              rw [KV.get?_insert_ne ps a p.1 _ (fun hc => hpa hc.symm)]

/-- C1: after finalization, every untouched account leaves the state trie
unchanged at keccak(address); every not-existing account has no state-trie
entry at keccak(address); every other account reads back as the encoded
StateAccount built from its nonce, balance, recomputed storage root and code
hash; and the finalized header carries the root hash of the resulting state
trie. -/
theorem c1_finalize_state_trie (E : Collab) (accounts : DB)
    (st : Trie StateAccount) (ps : PStorage) (T2 : Trie StateAccount)
    (ps2 : PStorage)
    (hinj : Function.Injective E.keccakAddr)
    (hnodup : (accounts.map Prod.fst).Nodup)
    (hres : finalizeAccounts E accounts st ps = some (T2, ps2)) :
    (∀ p ∈ accounts,
      (p.2.account_state = AccountState.None →
        KV.get? T2 (E.keccakAddr p.1) = KV.get? st (E.keccakAddr p.1))
      ∧ (p.2.account_state = AccountState.NotExisting →
        KV.get? T2 (E.keccakAddr p.1) = none)
      ∧ (p.2.account_state ≠ AccountState.None →
         p.2.account_state ≠ AccountState.NotExisting →
        KV.get? T2 (E.keccakAddr p.1)
          = (KV.get? ps p.1).map (fun se => stateAccountOf E p.2 se.1)))
    ∧ ∀ h : Header,
        (finalize E h accounts st ps).map (fun r => r.1.state_root)
          = some (E.trieRootSA T2) := by
  refine ⟨finalizeAccounts_mem E accounts st ps T2 ps2 hinj hnodup hres, ?_⟩
  intro h
  simp [finalize, hres]

/-- Witness for C1 on a concrete touched account: finalization inserts the
recomputed state account at its key. -/
theorem c1_finalize_state_trie_witness :
    finalizeAccounts collabC [(3, acctW1)] [] psW1 = some (trieW1, psW1out)
    ∧ KV.get? trieW1 (collabC.keccakAddr 3)
        = (KV.get? psW1 3).map (fun se => stateAccountOf collabC acctW1 se.1) := by
  constructor
  · decide
  · exact ((c1_finalize_state_trie collabC [(3, acctW1)] [] psW1 trieW1 psW1out
      (fun a b h => h) (by decide) (by decide)).1 (3, acctW1)
      (List.mem_cons_self _ _)).2.2 (by decide) (by decide)

theorem processAncestorsAux_checks (E : Collab) (n : Nat) (l : List Header)
    (prev : Header) (bh bh2 : List (Nat × Hash))
    (hres : processAncestorsAux E n prev bh l = some bh2) :
    ancestorChecksSpec E n prev l = true := by
  induction l generalizing prev bh with
  | nil => rfl
  | cons c rest ih =>
    by_cases hlink : prev.parent_hash = E.hashHeader c
    · by_cases hbad : n < c.number ∨ n - c.number ≥ 256
      · rw [show processAncestorsAux E n prev bh (c :: rest) = none from by
          simp [processAncestorsAux, hlink, hbad]] at hres
        exact absurd hres (by simp)
      · rw [show processAncestorsAux E n prev bh (c :: rest)
            = processAncestorsAux E n c
                (KV.insert bh c.number (E.hashHeader c)) rest from by
          simp [processAncestorsAux, hlink, hbad]] at hres
        have hwin : n - c.number < 256 := by omega
        simp [ancestorChecksSpec, hlink, hwin, ih c _ hres]
    · rw [show processAncestorsAux E n prev bh (c :: rest) = none from by
        simp [processAncestorsAux, hlink]] at hres
      exact absurd hres (by simp)

theorem processAncestorsAux_preserve (E : Collab) (n : Nat) (l : List Header)
    (prev : Header) (bh bh2 : List (Nat × Hash)) (k : Nat)
    (hres : processAncestorsAux E n prev bh l = some bh2)
    (hk : ∀ h ∈ l, h.number ≠ k) :
    KV.get? bh2 k = KV.get? bh k := by
  induction l generalizing prev bh with
  | nil =>
    simp only [processAncestorsAux, Option.some.injEq] at hres
    rw [hres]
  | cons c rest ih =>
    by_cases hlink : prev.parent_hash = E.hashHeader c
    · by_cases hbad : n < c.number ∨ n - c.number ≥ 256
      · rw [show processAncestorsAux E n prev bh (c :: rest) = none from by
          simp [processAncestorsAux, hlink, hbad]] at hres
        exact absurd hres (by simp)
      · rw [show processAncestorsAux E n prev bh (c :: rest)
            = processAncestorsAux E n c
                (KV.insert bh c.number (E.hashHeader c)) rest from by
          simp [processAncestorsAux, hlink, hbad]] at hres
        rw [ih c _ hres (fun h hh => hk h (List.mem_cons_of_mem _ hh))]
        exact KV.get?_insert_ne bh c.number k _ (hk c (List.mem_cons_self _ _))
    · rw [show processAncestorsAux E n prev bh (c :: rest) = none from by
        simp [processAncestorsAux, hlink]] at hres
      exact absurd hres (by simp)

theorem processAncestorsAux_mem (E : Collab) (n : Nat) (l : List Header)
    (prev : Header) (bh bh2 : List (Nat × Hash))
    (hres : processAncestorsAux E n prev bh l = some bh2)
    (hnodup : (l.map Header.number).Nodup) :
    ∀ h ∈ l, KV.get? bh2 h.number = some (E.hashHeader h) := by
  induction l generalizing prev bh with
  | nil =>
    intro h hh
    cases hh
  | cons c rest ih =>
    intro h hh
    have hnd := List.nodup_cons.mp hnodup
    by_cases hlink : prev.parent_hash = E.hashHeader c
    · by_cases hbad : n < c.number ∨ n - c.number ≥ 256
      · rw [show processAncestorsAux E n prev bh (c :: rest) = none from by
          simp [processAncestorsAux, hlink, hbad]] at hres
        exact absurd hres (by simp)
      · rw [show processAncestorsAux E n prev bh (c :: rest)
            = processAncestorsAux E n c
                (KV.insert bh c.number (E.hashHeader c)) rest from by
          simp [processAncestorsAux, hlink, hbad]] at hres
        rcases List.mem_cons.mp hh with heq | hhr
        · have hdist : ∀ r ∈ rest, r.number ≠ c.number := by
            intro r hr hc
            exact hnd.1 (hc ▸ List.mem_map_of_mem Header.number hr)
          rw [heq]
          rw [processAncestorsAux_preserve E n rest c _ bh2 c.number hres hdist]
          exact KV.get?_insert_self bh c.number _
        · exact ih c _ hres hnd.2 h hhr
    · rw [show processAncestorsAux E n prev bh (c :: rest) = none from by
        simp [processAncestorsAux, hlink]] at hres
      exact absurd hres (by simp)

/-- C4 counterexample: a chain of two ancestors that both carry block number
5 passes every link and window check, yet the final block-hash map binds
number 5 to the hash of the later ancestor, not of the first one — so the
claimed property block_hashes[h.number] = keccak(RLP(h)) fails for ancA. -/
theorem c4_counterexample :
    (processAncestors collabC parentDup [ancA, ancB]).isSome = true
    ∧ (processAncestors collabC parentDup [ancA, ancB]).bind
        (fun bh => KV.get? bh ancA.number) ≠ some (collabC.hashHeader ancA) := by
  constructor
  · decide
  · decide

/-- C4 (amended): hydration seeds the block-hash map with the parent entry
and aborts unless every ancestor passes the link check and the 256-block
window check; when it completes and the ancestor numbers are pairwise
distinct, every ancestor h is bound to its hash in the block-hash map (a
duplicated number is overwritten by the later ancestor), and the parent
entry survives when no ancestor reuses the parent number. -/
theorem c4_amended_block_hashes (E : Collab) (parent : Header)
    (ancs : List Header) (bh : List (Nat × Hash))
    (hres : processAncestors E parent ancs = some bh) :
    ancestorChecksSpec E parent.number parent ancs = true
    ∧ ((ancs.map Header.number).Nodup →
        ∀ h ∈ ancs, KV.get? bh h.number = some (E.hashHeader h))
    ∧ (parent.number ∉ ancs.map Header.number →
        KV.get? bh parent.number = some (E.hashHeader parent)) := by
  refine ⟨processAncestorsAux_checks E parent.number ancs parent _ bh hres,
    fun hnd => processAncestorsAux_mem E parent.number ancs parent _ bh hres hnd,
    fun hnot => ?_⟩
  have hk : ∀ h ∈ ancs, h.number ≠ parent.number := by
    intro h hh hc
    exact hnot (hc ▸ List.mem_map_of_mem Header.number hh)
  rw [processAncestorsAux_preserve E parent.number ancs parent _ bh
    parent.number hres hk]
  exact KV.get?_insert_self [] parent.number _

/-- Witness for C4 (amended) on a well-formed one-ancestor chain. -/
theorem c4_amended_block_hashes_witness :
    processAncestors collabC parentW4 [ancW4] = some [(9, 101), (10, 103)]
    ∧ KV.get? [(9, 101), (10, 103)] ancW4.number
        = some (collabC.hashHeader ancW4) := by
  constructor
  · decide
  · exact (c4_amended_block_hashes collabC parentW4 [ancW4] [(9, 101), (10, 103)]
      (by decide)).2.1 (by decide) ancW4 (List.mem_cons_self _ _)

theorem execTx_cumGas (E : Collab) (gl : Nat) (st : ExecState) (tx : RTx)
    (res : TxResult) (st1 : ExecState)
    (hex : execTx E gl st tx res = some st1) :
    st1.cumGas = st.cumGas + res.gas_used := by
  unfold execTx at hex
  split at hex
  · split at hex
    · split at hex
      · simp only [Option.some.injEq] at hex
        rw [← hex]
      · cases hex
    · cases hex
  · cases hex

theorem runTxs_cumGas (E : Collab) (gl : Nat) (l : List (RTx × TxResult))
    (st st2 : ExecState) (hres : runTxs E gl st l = some st2) :
    st2.cumGas = st.cumGas + sumGasUsed l := by
  induction l generalizing st with
  | nil =>
    simp only [runTxs, Option.some.injEq] at hres
    rw [← hres]
    simp [sumGasUsed]
  | cons p rest ih =>
    simp only [runTxs] at hres
    cases hex : execTx E gl st p.1 p.2 with
    | none =>
      rw [hex] at hres
      exact absurd hres (by simp)
    | some st1 =>
      rw [hex] at hres
      rw [ih st1 hres, execTx_cumGas E gl st p.1 p.2 st1 hex]
      simp [sumGasUsed]
      omega

theorem wrapSub256_eq (a b : Nat) (hb : b ≤ a) (ha : a < 2 ^ 256) :
    wrapSub256 a b = a - b := by
  unfold wrapSub256
  rw [Nat.mod_eq_of_lt (lt_of_le_of_lt hb ha)]
  rw [show a + 2 ^ 256 - b = (a - b) + 2 ^ 256 by omega]
  rw [Nat.add_mod_right]
  exact Nat.mod_eq_of_lt (by omega)

/-- C7 (amended): when the run reaches transaction i (the first i paired
results executed successfully), the sender recovery of transaction i
succeeds and the transaction is not EIP-4844, the pre-interpreter checks
fail exactly when the transaction gas limit exceeds the remaining block gas
(block gas limit minus the cumulative gas of the executed prefix), and the
accumulated cumulative gas is the sum of the per-transaction gas used. -/
theorem c7_amended_block_gas_guard (E : Collab) (gasLimit : Nat)
    (pairs : List (RTx × TxResult)) (db0 : DB) (st : ExecState) (tx : RTx)
    (hgl : gasLimit < 2 ^ 64)
    (hrun : runTxs E gasLimit
      { cumGas := 0, receipts := [], bloom := 0, db := db0 } pairs = some st)
    (hsig : tx.recoveredSigner.isSome = true)
    (htype : tx.txType ≠ TxType.eip4844)
    (hle : st.cumGas ≤ gasLimit) :
    (txPreCheck gasLimit st.cumGas tx = false
      ↔ tx.gas_limit > gasLimit - st.cumGas)
    ∧ st.cumGas = sumGasUsed pairs := by
  constructor
  · simp [txPreCheck, hsig, htype,
      wrapSub256_eq gasLimit st.cumGas hle (by omega)]
  · have := runTxs_cumGas E gasLimit pairs _ st hrun
    simpa using this

/-- Witness for C7 (amended) at an empty executed prefix: a transaction
whose gas limit 7 exceeds the available 5 fails the guard. -/
theorem c7_amended_block_gas_guard_witness :
    (txPreCheck 5 0 txW7 = false ↔ txW7.gas_limit > 5 - 0)
    ∧ (0 : Nat) = sumGasUsed [] :=
  c7_amended_block_gas_guard collabC 5 [] []
    { cumGas := 0, receipts := [], bloom := 0, db := [] } txW7
    (by decide) rfl rfl (by decide) (by decide)

/-- C7 counterexample: a transaction with an unrecoverable signature aborts
before the interpreter although its gas limit (10) does not exceed the
available block gas (100), so the claimed equivalence fails. -/
theorem c7_counterexample :
    ¬ ((txPreCheck 100 0 txNoSig = false)
        ↔ txNoSig.gas_limit > 100 - 0) := by
  decide

theorem increaseAccountBalance_eq (E : Collab) (db : DB) (a : Address)
    (amt : Nat) :
    increaseAccountBalance E db a amt =
      if ((basicInfo db a).getD (defaultAccountInfo E)).balance + amt < 2 ^ 256
      then some
        (match KV.get? db a with
         | some acct =>
           KV.insert db a
             { acct with
               info := { (basicInfo db a).getD (defaultAccountInfo E) with
                 balance := ((basicInfo db a).getD
                   (defaultAccountInfo E)).balance + amt },
               account_state := AccountState.Touched }
         | none =>
           KV.insert db a
             { info := { (basicInfo db a).getD (defaultAccountInfo E) with
                 balance := ((basicInfo db a).getD
                   (defaultAccountInfo E)).balance + amt },
               account_state := AccountState.Touched, storage := [] })
      else none := rfl

theorem processWithdrawal_eq (E : Collab) (db : DB) (w : Withdrawal) :
    processWithdrawal E db w =
      if 1000000000 * w.amount < 2 ^ 256
      then increaseAccountBalance E db w.address (1000000000 * w.amount)
      else none := rfl

/-- C9: crediting a withdrawal adds exactly amount * 10^9 wei to the balance
of its address (checked multiplication and addition, overflow aborts),
creates the account empty if absent and marks it touched; and the
withdrawal phase leaves cumulative gas, receipts and bloom untouched. -/
theorem c9_withdrawals (E : Collab) (db : DB) (w : Withdrawal) :
    (∀ db2, processWithdrawal E db w = some db2 →
       dbBalance E db2 w.address
           = dbBalance E db w.address + w.amount * 1000000000
       ∧ (∃ acct, KV.get? db2 w.address = some acct
            ∧ acct.account_state = AccountState.Touched)
       ∧ (KV.get? db w.address = none →
            ∃ acct, KV.get? db2 w.address = some acct
              ∧ acct.storage = [] ∧ acct.info.nonce = 0
              ∧ acct.info.code_hash = E.keccakEmpty
              ∧ acct.info.balance = w.amount * 1000000000))
    ∧ (¬ (1000000000 * w.amount < 2 ^ 256
          ∧ dbBalance E db w.address + 1000000000 * w.amount < 2 ^ 256) →
        processWithdrawal E db w = none)
    ∧ (∀ st ws st2, withdrawalPhase E st ws = some st2 →
        st2.receipts = st.receipts ∧ st2.cumGas = st.cumGas
          ∧ st2.bloom = st.bloom) := by
  refine ⟨?_, ?_, ?_⟩
  · intro db2 h
    rw [processWithdrawal_eq] at h
    by_cases hmul : 1000000000 * w.amount < 2 ^ 256
    · rw [if_pos hmul, increaseAccountBalance_eq] at h
      by_cases hadd : ((basicInfo db w.address).getD
          (defaultAccountInfo E)).balance + 1000000000 * w.amount < 2 ^ 256
      · rw [if_pos hadd] at h
        cases hdb : KV.get? db w.address with
        | some acct =>
          rw [hdb] at h
          simp only [Option.some.injEq] at h
          subst h
          refine ⟨?_, ?_, fun hc => absurd hc (by simp [hdb])⟩
          · simp [dbBalance, basicInfo, KV.get?_insert_self]
            omega
          · exact ⟨_, KV.get?_insert_self db w.address _, rfl⟩
        | none =>
          rw [hdb] at h
          simp only [Option.some.injEq] at h
          subst h
          have hb : basicInfo db w.address = none := by
            simp [basicInfo, hdb]
          refine ⟨?_, ?_, ?_⟩
          · simp [dbBalance, basicInfo, KV.get?_insert_self, hb,
              defaultAccountInfo]
            omega
          · exact ⟨_, KV.get?_insert_self db w.address _, rfl⟩
          · intro _
            refine ⟨_, KV.get?_insert_self db w.address _, rfl, ?_, ?_, ?_⟩
            · simp [hb, defaultAccountInfo]
            · simp [hb, defaultAccountInfo]
            · simp [hb, defaultAccountInfo]
              omega
      · rw [if_neg hadd] at h
        cases h
    · rw [if_neg hmul] at h
      cases h
  · intro hover
    rw [processWithdrawal_eq]
    by_cases hmul : 1000000000 * w.amount < 2 ^ 256
    · have hadd : ¬ (((basicInfo db w.address).getD
          (defaultAccountInfo E)).balance + 1000000000 * w.amount < 2 ^ 256) := by
        intro hc
        exact hover ⟨hmul, hc⟩
      rw [if_pos hmul, increaseAccountBalance_eq, if_neg hadd]
    · rw [if_neg hmul]
  · intro st ws st2 h
    unfold withdrawalPhase at h
    cases hp : processWithdrawals E st.db ws with
    | none =>
      rw [hp] at h
      cases h
    | some db2 =>
      rw [hp] at h
      simp only [Option.some.injEq] at h
      subst h
      exact ⟨rfl, rfl, rfl⟩

/-- Witness for C9: crediting 3 gwei to the empty database creates a touched
account with balance 3 * 10^9 wei. -/
theorem c9_withdrawals_witness :
    processWithdrawal collabC [] wd9 = some dbOut9
    ∧ dbBalance collabC dbOut9 wd9.address
        = dbBalance collabC [] wd9.address + wd9.amount * 1000000000 := by
  constructor
  · decide
  · exact ((c9_withdrawals collabC [] wd9).1 dbOut9 (by decide)).1

/-- C5: the full run completes on a witness whose gas limit jumps from
1000000 to 2000000 even though validate_gas_limit would reject that jump and
the claimed bound fails — the pipeline never invokes validate_gas_limit. -/
theorem c5_gas_limit_not_validated :
    (runBlock collabC inputGasJump []).isSome = true
    ∧ (initializeHeader collabC inputGasJump).map
        (validateGasLimit inputGasJump.parent_header) = some false
    ∧ ¬ (2000000 - 1000000 < 1000000 / 1024) := by
  refine ⟨by decide, by decide, by decide⟩

/-- C6: validate_header_standalone rejects a header whose gas used exceeds
its gas limit, yet the full run completes and emits a block hash for a
header with gas_used 200 above gas_limit 100 (reachable when the
interpreter result trace over-reports gas) — the pipeline never invokes
validate_header_standalone after execution. -/
theorem c6_gas_used_not_validated :
    validateHeaderStandalone
      { defaultHeader with gas_used := 2, gas_limit := 1 } = false
    ∧ (runBlock collabC inputOneTx [resOverGas]).isSome = true
    ∧ (runBlock collabC inputOneTx [resOverGas]).map
        (fun p => decide (p.2.gas_used ≤ p.2.gas_limit)) = some false := by
  refine ⟨by decide, by decide, by decide⟩

/-- Witness for C10: a touched account with no parent-storage entry makes
finalization abort, and adding the entry makes it succeed. -/
theorem c10_finalize_parent_storage_witness :
    finalizeAccounts collabC [(4, acctW1)] [] [] = none
    ∧ (finalizeAccounts collabC [(4, acctW1)] [] [(4, ([], []))]).isSome := by
  constructor
  · exact (c10_finalize_parent_storage collabC [(4, acctW1)] [] []).2
      (4, acctW1) (List.mem_cons_self _ _) (by decide) (by decide) rfl
  · exact (c10_finalize_parent_storage collabC [(4, acctW1)] []
      [(4, ([], []))]).1 (by decide)
